import Mathlib

/-!
Shallow embedding of the realtime audio session manager of the PlayMaster
repository (the React component in the single source file: session state
machine, playback scheduler, capture pipeline, PCM conversion), together
with proofs settling the frozen claims about it.

Conventions of the embedding:
* clock times and sample values are rationals (the multiplications by the
  power of two 32768 are exact in binary floating point, so `ℚ` is a
  faithful carrier for the arithmetic the claims mention);
* each asynchronous callback of the source (onmessage, onended,
  onaudioprocess, the mic `useEffect`) is modelled as an atomic state
  transformer on an explicit record of the React refs and state hooks;
* `stop()` on a Web Audio `AudioBufferSourceNode` fires that node's
  `ended` event, so the flush branch of `onmessage` is modelled as the
  clear/reset followed by the induced `onended` callbacks, which run on
  the already-cleared set.
-/

namespace PlayMaster

/-- The `AppStatus` enumeration (from `types.ts`, as used by the component:
IDLE, FILE_UPLOADED, CONNECTING, READY, LISTENING, SPEAKING, ERROR). -/
inductive AppStatus where
  | IDLE
  | FILE_UPLOADED
  | CONNECTING
  | READY
  | LISTENING
  | SPEAKING
  | ERROR
deriving DecidableEq

open AppStatus

/-- The mutable state of the component: the `status` and `isMicOn` React
state hooks, the refs (`sessionRef`, `nextStartTimeRef`, `sourcesRef`), the
supplied script (`script` hook, collapsed to presence), the error message
(collapsed to presence), plus two observation fields: `stopped` records the
sources on which `stop()` has been called, and `connectAttempts` counts how
often the connection/I-O path of `connectToGemini` was entered. -/
structure AppState where
  status : AppStatus
  script : Bool
  isMicOn : Bool
  session : Bool
  errorMsg : Bool
  nextStartTime : ℚ
  pending : List ℕ
  stopped : List ℕ
  connectAttempts : ℕ
deriving DecidableEq

/-- Initial component state: `useState(AppStatus.IDLE)`, no script, mic off,
no session, `nextStartTimeRef = 0`, empty source set. -/
def initState : AppState :=
  { status := IDLE, script := false, isMicOn := false, session := false,
    errorMsg := false, nextStartTime := 0, pending := [], stopped := [],
    connectAttempts := 0 }

/-- The start time `source.start(nextStartTimeRef.current)` uses after the
`nextStartTimeRef.current = Math.max(nextStartTimeRef.current, ctx.currentTime)`
update: `max nextStartTime now`. -/
def startTimeOf (s : AppState) (now : ℚ) : ℚ :=
  max s.nextStartTime now

/-- The audio branch of `onmessage` for a successfully decoded chunk:
`setStatus(SPEAKING)`; `nextStartTime = max(nextStartTime, now)`;
`source.start(nextStartTime)`; `nextStartTime += audioBuffer.duration`;
`sourcesRef.current.add(source)`. -/
def onAudioChunk (s : AppState) (now dur : ℚ) (srcId : ℕ) : AppState :=
  { s with status := SPEAKING,
           nextStartTime := max s.nextStartTime now + dur,
           pending := srcId :: s.pending }

/-- The `source.onended` callback: `sourcesRef.current.delete(source)`;
`if (sourcesRef.current.size === 0) setStatus(isMicOnRef.current ? LISTENING : READY)`. -/
def onSourceEnded (s : AppState) (srcId : ℕ) : AppState :=
  let p := s.pending.erase srcId
  { s with pending := p,
           status := if p.isEmpty then (if s.isMicOn then LISTENING else READY)
                     else s.status }

/-- The `interrupted` branch of `onmessage`:
`sourcesRef.current.forEach(s => s.stop()); sourcesRef.current.clear();
nextStartTimeRef.current = 0;` — and, since `stop()` fires each stopped
source's `ended` event, the induced `onended` callbacks, which run after the
handler on the already-cleared set. -/
def onInterrupted (s : AppState) : AppState :=
  let cleared := { s with pending := ([] : List ℕ), nextStartTime := 0,
                          stopped := s.pending ++ s.stopped }
  s.pending.foldl onSourceEnded cleared

/-- The inbound-message handler `onmessage`, over the logical message shape
`{ audioPayload?, interrupted? }`.  The audio payload is given already split
on decodability: `some (some dur)` is a payload decoding to a chunk of
duration `dur`; `some none` is a payload present but malformed.  (The
`decode`/`decodeAudioData` helpers live in `utils/audioUtils`, which is not
part of the source tree; their failure mode is modelled from the spec:
decode fails on invalid encoding.)  The handler runs the audio block first —
`setStatus(SPEAKING)` and the `nextStartTime` bump happen before the decode —
so a decode failure aborts the async handler after those two effects,
skipping the rest of the handler including the `interrupted` check. -/
def onMessage (s : AppState) (now : ℚ) (audio : Option (Option ℚ))
    (interrupted : Bool) (srcId : ℕ) : AppState :=
  match audio with
  | some (some dur) =>
      let s1 := onAudioChunk s now dur srcId
      if interrupted then onInterrupted s1 else s1
  | some none =>
      { s with status := SPEAKING, nextStartTime := max s.nextStartTime now }
  | none =>
      if interrupted then onInterrupted s else s

/-- The synchronous observable prefix of `connectToGemini`: the guard
`if (!script) return;` and then `setStatus(CONNECTING); setErrorMsg(null);`
followed by the connection/I-O path (`new GoogleGenAI`, `ai.live.connect`,
`getUserMedia`), whose entry is counted by `connectAttempts`. -/
def connectStart (s : AppState) : AppState :=
  if s.script = false then s
  else { s with status := CONNECTING, errorMsg := false,
                connectAttempts := s.connectAttempts + 1 }

/-- The mic `useEffect` (reacting to `isMicOn`/`status`): if the mic is on
and the status is READY or FILE_UPLOADED, connect when no session is active,
otherwise go to LISTENING; if the mic is off while LISTENING, go to READY. -/
def micEffect (s : AppState) : AppState :=
  if s.isMicOn = true ∧ (s.status = READY ∨ s.status = FILE_UPLOADED) then
    (if s.session = false then connectStart s
     else { s with status := LISTENING })
  else if s.isMicOn = false ∧ s.status = LISTENING then
    { s with status := READY }
  else s

/-- The `toggleMic` command, composed with the mic `useEffect` it triggers:
`if (status === IDLE || status === ERROR) return; setIsMicOn(prev => !prev);`
and then the effect runs on the re-render. -/
def toggleMic (s : AppState) : AppState :=
  if s.status = IDLE ∨ s.status = ERROR then s
  else micEffect { s with isMicOn := !s.isMicOn }

/-- Truncation of a rational toward zero — the integer conversion step of the
ECMAScript `ToInt16` abstract operation applied on a store into an
`Int16Array`. -/
def ratTrunc (q : ℚ) : ℤ :=
  if 0 ≤ q then ⌊q⌋ else ⌈q⌉

/-- The wrap-to-int16 step of `ToInt16`: reduce modulo 2^16, then pick the
signed representative in [-32768, 32768). -/
def toInt16 (i : ℤ) : ℤ :=
  if i % 65536 < 32768 then i % 65536
  else i % 65536 - 65536

/-- The per-sample conversion of the capture loop, `int16[i] = inputData[i] * 32768`:
an `Int16Array` element store applies `ToInt16` to the scaled sample. -/
def sampleToInt16 (x : ℚ) : ℤ :=
  toInt16 (ratTrunc (x * 32768))

/-- The two bytes an `Int16Array` element contributes to the
`new Uint8Array(int16.buffer)` view, on a little-endian host (low byte
first); the stored bit pattern is the value modulo 2^16. -/
def int16LEBytes (v : ℤ) : List ℕ :=
  [(v % 65536).toNat % 256, (v % 65536).toNat / 256]

/-- The full frame conversion of `processor.onaudioprocess`: each sample is
scaled, stored through `ToInt16`, and the resulting buffer is viewed as
bytes. -/
def floatToPCM16 : List ℚ → List ℕ
  | [] => []
  | x :: xs => int16LEBytes (sampleToInt16 x) ++ floatToPCM16 xs

/-- The PCM encoder as the spec words it: scale each sample by 32768,
truncate to a 16-bit signed integer with wraparound modulo 2^16 (no
clamping), and serialize little-endian.  Stated from the spec contract, to
be compared with the source-derived `floatToPCM16`. -/
def floatToPCM16Spec : List ℚ → List ℕ
  | [] => []
  | x :: xs =>
      (ratTrunc (x * 32768) % 65536).toNat % 256 ::
      (ratTrunc (x * 32768) % 65536).toNat / 256 ::
      floatToPCM16Spec xs

/-- Events of the capture pipeline: a fixed-size frame delivered by
`onaudioprocess`, or a write to the mic flag (`isMicOnRef.current`). -/
inductive CapEvent where
  | frame (data : List ℚ)
  | setMic (b : Bool)

/-- The capture loop over a stream of events: a frame arriving while the mic
flag is true is converted and sent (`sendRealtimeInput`); a frame arriving
while it is false produces nothing; `setMic` updates the flag read by later
frames.  Returns the list of outbound payloads in send order. -/
def capRun : Bool → List CapEvent → List (List ℕ)
  | _, [] => []
  | mic, CapEvent.frame d :: es =>
      (if mic then [floatToPCM16 d] else []) ++ capRun mic es
  | _, CapEvent.setMic b :: es => capRun b es

/-- The frames of an event stream that arrive while the mic flag is true. -/
def framesOn : Bool → List CapEvent → List (List ℚ)
  | _, [] => []
  | mic, CapEvent.frame d :: es =>
      (if mic then [d] else []) ++ framesOn mic es
  | _, CapEvent.setMic b :: es => framesOn b es

/-- The three operations of the playback scheduler: a decoded chunk is
enqueued, a source's playback completes, or an interruption flushes. -/
inductive SchedEvent where
  | chunk (now dur : ℚ) (srcId : ℕ)
  | ended (srcId : ℕ)
  | interrupt

/-- Dispatch one scheduler operation. -/
def schedStep (s : AppState) : SchedEvent → AppState
  | SchedEvent.chunk now dur srcId => onAudioChunk s now dur srcId
  | SchedEvent.ended srcId => onSourceEnded s srcId
  | SchedEvent.interrupt => onInterrupted s

/-- Run a sequence of scheduler operations from the initial component
state. -/
def schedRun (es : List SchedEvent) : AppState :=
  es.foldl schedStep initState

/-- A state in which the session has errored out. -/
def erroredState : AppState :=
  { initState with status := ERROR, script := true, errorMsg := true }

/-- A state with two chunks pending and the mic on, as in the interruption
scenario of the spec. -/
def flushDemoState : AppState :=
  { initState with status := SPEAKING, script := true, session := true,
                   isMicOn := true, nextStartTime := 5, pending := [7, 8] }

/-- A connected, idle-playback state with the mic off. -/
def readyState : AppState :=
  { initState with status := READY, script := true, session := true }

/-- A connected state with the mic on and playback idle. -/
def listeningState : AppState :=
  { initState with status := LISTENING, script := true, session := true,
                   isMicOn := true }

/-! Helper lemmas. -/

theorem onSourceEnded_of_pending_nil (s : AppState) (srcId : ℕ)
    (h : s.pending = []) :
    onSourceEnded s srcId =
      { s with status := if s.isMicOn then LISTENING else READY } := by
  unfold onSourceEnded
  simp [h]

theorem foldl_onSourceEnded_of_pending_nil (l : List ℕ) (s : AppState)
    (hp : s.pending = []) (hl : l ≠ []) :
    l.foldl onSourceEnded s =
      { s with status := if s.isMicOn then LISTENING else READY } := by
  induction l generalizing s with
  | nil => cases hl rfl
  | cons a t ih =>
    rw [List.foldl_cons, onSourceEnded_of_pending_nil s a hp]
    cases t with
    | nil => rfl
    | cons b u =>
      rw [ih { s with status := if s.isMicOn then LISTENING else READY }
            (by simp [hp]) (by simp)]

theorem onInterrupted_eq (s : AppState) :
    onInterrupted s =
      { s with
          status := if s.pending = [] then s.status
                    else if s.isMicOn then LISTENING else READY,
          pending := [],
          nextStartTime := 0,
          stopped := s.pending ++ s.stopped } := by
  unfold onInterrupted
  cases hp : s.pending with
  | nil => simp
  | cons a t =>
    rw [foldl_onSourceEnded_of_pending_nil (a :: t) _ rfl (by simp)]
    simp [hp]

theorem schedStep_inv (s : AppState) (e : SchedEvent)
    (h : s.status = SPEAKING ↔ s.pending ≠ []) :
    (schedStep s e).status = SPEAKING ↔ (schedStep s e).pending ≠ [] := by
  cases e with
  | chunk now dur srcId =>
    simp [schedStep, onAudioChunk]
  | ended srcId =>
    unfold schedStep onSourceEnded
    by_cases hp : (s.pending.erase srcId).isEmpty
    · have hnil : s.pending.erase srcId = [] := List.isEmpty_iff.mp hp
      rcases Bool.eq_false_or_eq_true s.isMicOn with hm | hm <;>
        simp [hp, hnil, hm]
    · have hne : s.pending.erase srcId ≠ [] := fun hc => hp (by simp [hc])
      have hpe : s.pending ≠ [] := by
        intro hc
        exact hne (by simp [hc])
      simp [hp, hne, h.mpr hpe]
  | interrupt =>
    rw [schedStep, onInterrupted_eq]
    by_cases hp : s.pending = []
    · have : s.status ≠ SPEAKING := fun hc => (h.mp hc) hp
      simp [hp, this]
    · rcases Bool.eq_false_or_eq_true s.isMicOn with hm | hm <;>
        simp [hp, hm]

theorem toInt16_emod (i : ℤ) :
    toInt16 i % 65536 = i % 65536 := by
  unfold toInt16
  have h0 : 0 ≤ i % 65536 := Int.emod_nonneg i (by norm_num)
  have h1 : i % 65536 < 65536 := Int.emod_lt_of_pos i (by norm_num)
  split <;> omega

theorem toInt16_of_range (i : ℤ) (h0 : -32768 ≤ i) (h1 : i < 32768) :
    toInt16 i = i := by
  unfold toInt16
  have e0 : 0 ≤ i % 65536 := Int.emod_nonneg i (by norm_num)
  have e1 : i % 65536 < 65536 := Int.emod_lt_of_pos i (by norm_num)
  have e2 : i % 65536 = i ∨ i % 65536 = i + 65536 := by omega
  rcases e2 with e2 | e2 <;> split <;> omega

theorem ratTrunc_bounds (q : ℚ) (n : ℕ) (h0 : -(n : ℚ) ≤ q) (h1 : q < n) :
    -(n : ℤ) ≤ ratTrunc q ∧ ratTrunc q < n := by
  by_cases hq : 0 ≤ q
  · rw [ratTrunc, if_pos hq]
    constructor
    · have : (0 : ℤ) ≤ ⌊q⌋ := Int.le_floor.mpr (by exact_mod_cast hq)
      omega
    · exact Int.floor_lt.mpr (by exact_mod_cast h1)
  · rw [ratTrunc, if_neg hq]
    push_neg at hq
    have hnpos : 0 < n := by
      by_contra hc
      have : n = 0 := by omega
      subst this
      simp at h0
      exact absurd (lt_of_le_of_lt h0 hq) (lt_irrefl 0)
    constructor
    · have hle : ((-(n : ℤ) : ℤ) : ℚ) ≤ q := by push_cast; exact h0
      calc -(n : ℤ) = ⌈((-(n : ℤ) : ℤ) : ℚ)⌉ := (Int.ceil_intCast _).symm
        _ ≤ ⌈q⌉ := Int.ceil_le_ceil hle
    · have hc0 : ⌈q⌉ ≤ 0 := Int.ceil_le.mpr (by exact_mod_cast le_of_lt hq)
      omega

/-! Claim theorems. -/

/-- C1, counterexample.  The claim asserts that for chunks arriving at
arbitrary clock times the start time of chunk k+1 equals the start time of
chunk k plus d_k, with no flush intervening.  It fails when a chunk arrives
after the previous chunk's scheduled end: a first chunk of duration 1
enqueued at clock time 0 starts at 0, and a second chunk enqueued at clock
time 5 starts at max(1, 5) = 5, not at 0 + 1. -/
theorem c1_counterexample :
    startTimeOf initState 0 = 0 ∧
    startTimeOf (onAudioChunk initState 0 1 0) 5 = 5 ∧
    startTimeOf (onAudioChunk initState 0 1 0) 5 ≠ startTimeOf initState 0 + 1 := by
  refine ⟨?_, ?_, ?_⟩ <;> norm_num [startTimeOf, onAudioChunk, initState]

/-- C1, amended.  `enqueue` sets `nextStartTime` to `max(nextStartTime, now)`,
schedules the chunk to start exactly there, advances `nextStartTime` by the
chunk's duration and adds a handle to the pending set; consequently, whenever
the next chunk arrives no later than the previous chunk's scheduled end
(`now2 ≤ nextStartTime`), its start time equals the previous start time plus
the previous duration — back-to-back with no gap and no overlap. -/
theorem c1_back_to_back (s : AppState) (now dur now2 : ℚ) (srcId : ℕ)
    (h : now2 ≤ (onAudioChunk s now dur srcId).nextStartTime) :
    startTimeOf s now = max s.nextStartTime now ∧
    (onAudioChunk s now dur srcId).nextStartTime = startTimeOf s now + dur ∧
    (onAudioChunk s now dur srcId).pending = srcId :: s.pending ∧
    startTimeOf (onAudioChunk s now dur srcId) now2 = startTimeOf s now + dur := by
  refine ⟨rfl, rfl, rfl, ?_⟩
  have h2 : now2 ≤ max s.nextStartTime now + dur := h
  exact max_eq_left h2

/-- C1, witness for the amended theorem: first chunk of duration 1 enqueued
at clock time 0, second chunk arriving at clock time 1 (exactly the first
chunk's scheduled end) starts at 0 + 1. -/
theorem c1_back_to_back_witness :
    (1 : ℚ) ≤ (onAudioChunk initState 0 1 0).nextStartTime ∧
    startTimeOf (onAudioChunk initState 0 1 0) 1 = startTimeOf initState 0 + 1 := by
  have hh : (1 : ℚ) ≤ (onAudioChunk initState 0 1 0).nextStartTime := by
    norm_num [onAudioChunk, initState]
  exact ⟨hh, (c1_back_to_back initState 0 1 1 0 hh).2.2.2⟩

/-- C2, counterexample.  The claim asserts that after every enqueue,
source-completion and flush operation the status equals SPEAKING iff the
pending set is non-empty.  It fails at a flush checkpoint: a malformed
payload arriving on a LISTENING session sets SPEAKING before the decode
throws (no source is added), and the flush that follows stops and clears an
already-empty set — no `onended` fires, so the session is left SPEAKING
with `pending = []` right after a flush operation. -/
theorem c2_counterexample :
    (onInterrupted (onMessage listeningState 0 (some none) false 0)).pending = [] ∧
    (onInterrupted (onMessage listeningState 0 (some none) false 0)).status = SPEAKING ∧
    ¬((onInterrupted (onMessage listeningState 0 (some none) false 0)).status = SPEAKING ↔
      (onInterrupted (onMessage listeningState 0 (some none) false 0)).pending ≠ []) :=
  ⟨rfl, rfl, fun hiff => hiff.mp rfl rfl⟩

/-- C2, amended: after every sequence of successful enqueue,
source-completion and flush operations of the playback scheduler — that is,
as long as no malformed payload and no connection error intervenes — the
session status equals SPEAKING if and only if the set of pending playback
sources is non-empty. -/
theorem c2_speaking_iff_pending (es : List SchedEvent) :
    ((schedRun es).status = SPEAKING ↔ (schedRun es).pending ≠ []) := by
  unfold schedRun
  have base : (initState.status = SPEAKING ↔ initState.pending ≠ []) := by
    simp [initState]
  generalize initState = s0 at base ⊢
  induction es generalizing s0 with
  | nil => exact base
  | cons e t ih =>
    rw [List.foldl_cons]
    exact ih _ (schedStep_inv s0 e base)

/-- C3, counterexample.  The claim asserts that while the status is ERROR an
inbound audio chunk never changes the status.  In the code the audio branch
of `onmessage` runs `setStatus(SPEAKING)` with no guard on the current
status, so a chunk arriving in the ERROR state moves the session to
SPEAKING. -/
theorem c3_counterexample :
    erroredState.status = ERROR ∧
    (onMessage erroredState 0 (some (some 1)) false 0).status = SPEAKING ∧
    SPEAKING ≠ ERROR := by
  exact ⟨rfl, rfl, by decide⟩

/-- C3, amended: an inbound audio chunk sets the status to SPEAKING
regardless of the prior state, including ERROR — the message handler has no
Error guard; ERROR is left by a chunk arrival just as by anything else, and
only `toggleMic` checks for the ERROR state. -/
theorem c3_chunk_always_speaking (s : AppState) (now dur : ℚ) (srcId : ℕ) :
    (onMessage s now (some (some dur)) false srcId).status = SPEAKING := rfl

/-- C4: when an interruption signal arrives while playback sources are
pending, every pending source is stopped, the pending set becomes empty,
`nextStartTime` is reset to 0 — so a subsequent enqueue at any clock time
`now ≥ 0` schedules its start exactly at `now`, never in the past — and the
status becomes LISTENING if the mic is on, READY otherwise. -/
theorem c4_interruption (s : AppState) (h : s.pending ≠ []) :
    (onInterrupted s).pending = [] ∧
    (∀ srcId, srcId ∈ s.pending → srcId ∈ (onInterrupted s).stopped) ∧
    (onInterrupted s).nextStartTime = 0 ∧
    (onInterrupted s).status = (if s.isMicOn then LISTENING else READY) ∧
    (∀ now : ℚ, 0 ≤ now → startTimeOf (onInterrupted s) now = now) := by
  rw [onInterrupted_eq]
  refine ⟨rfl, ?_, rfl, ?_, ?_⟩
  · intro srcId hmem
    simp [List.mem_append, hmem]
  · simp [h]
  · intro now hnow
    unfold startTimeOf
    simp [max_eq_right hnow]

/-- C4, witness: a state with two pending sources, mic on, `nextStartTime`
5; after the interruption the pending set is empty, both sources are
stopped, `nextStartTime` is 0 and the status is LISTENING. -/
theorem c4_interruption_witness :
    flushDemoState.pending ≠ [] ∧
    (onInterrupted flushDemoState).pending = [] ∧
    (7 ∈ (onInterrupted flushDemoState).stopped ∧
      8 ∈ (onInterrupted flushDemoState).stopped) ∧
    (onInterrupted flushDemoState).nextStartTime = 0 ∧
    (onInterrupted flushDemoState).status =
      (if flushDemoState.isMicOn then LISTENING else READY) ∧
    startTimeOf (onInterrupted flushDemoState) 9 = 9 := by
  have h : flushDemoState.pending ≠ [] := by decide
  have r := c4_interruption flushDemoState h
  exact ⟨h, r.1,
    ⟨r.2.1 7 (by decide), r.2.1 8 (by decide)⟩,
    r.2.2.1, r.2.2.2.1, r.2.2.2.2 9 (by norm_num)⟩

/-- C5: a capture frame arriving while the mic flag is false produces zero
outbound sends (silently dropped, not queued); a frame arriving while it is
true is converted by the codec and sent; over any event stream the sends are
exactly the conversions of the frames that arrive while the flag is true, so
toggling the mic on mid-stream causes exactly the frames from the very next
arrival onward to be sent. -/
theorem c5_capture_gating :
    (∀ mic es, capRun mic es = (framesOn mic es).map floatToPCM16) ∧
    (∀ fs : List (List ℚ), capRun false (fs.map CapEvent.frame) = []) ∧
    (∀ fs1 fs2 : List (List ℚ),
      capRun false
          (fs1.map CapEvent.frame ++ CapEvent.setMic true :: fs2.map CapEvent.frame)
        = fs2.map floatToPCM16) := by
  have hchar : ∀ es mic, capRun mic es = (framesOn mic es).map floatToPCM16 := by
    intro es
    induction es with
    | nil => intro mic; rfl
    | cons e t ih =>
      intro mic
      cases e with
      | frame d =>
        cases mic <;> simp [capRun, framesOn, ih]
      | setMic b => simp [capRun, framesOn, ih]
  have hoff : ∀ fs : List (List ℚ), ∀ es,
      capRun false (fs.map CapEvent.frame ++ es) = capRun false es := by
    intro fs
    induction fs with
    | nil => intro es; rfl
    | cons d t ih => intro es; simp [capRun, ih]
  have hon : ∀ fs : List (List ℚ),
      capRun true (fs.map CapEvent.frame) = fs.map floatToPCM16 := by
    intro fs
    induction fs with
    | nil => rfl
    | cons d t ih => simp [capRun, ih]
  refine ⟨fun mic es => hchar es mic, ?_, ?_⟩
  · intro fs
    have := hoff fs []
    simpa using this
  · intro fs1 fs2
    rw [hoff fs1]
    show capRun true (fs2.map CapEvent.frame) = fs2.map floatToPCM16
    exact hon fs2

/-- C6: the float-to-PCM16 conversion agrees byte for byte with the spec's
contract — scale by 32768, truncate, reduce into a 16-bit little-endian
signed integer; for a sample in [-1, 1) the stored value is exactly
trunc(x·32768) with no reduction needed, the boundary sample 1 wraps to
-32768, and the out-of-range sample 2 wraps modulo 2^16 to 0 instead of
saturating at 32767 — no clamping. -/
theorem c6_pcm16 :
    (∀ xs, floatToPCM16 xs = floatToPCM16Spec xs) ∧
    (∀ x : ℚ, -1 ≤ x → x < 1 →
        sampleToInt16 x = ratTrunc (x * 32768) ∧
        -32768 ≤ sampleToInt16 x ∧ sampleToInt16 x < 32768) ∧
    sampleToInt16 1 = -32768 ∧
    sampleToInt16 2 = 0 ∧
    floatToPCM16 [1] = [0, 128] := by
  have hsample : ∀ x : ℚ, sampleToInt16 x % 65536 = ratTrunc (x * 32768) % 65536 :=
    fun x => toInt16_emod (ratTrunc (x * 32768))
  have heq : ∀ xs, floatToPCM16 xs = floatToPCM16Spec xs := by
    intro xs
    induction xs with
    | nil => rfl
    | cons x t ih =>
      show int16LEBytes (sampleToInt16 x) ++ floatToPCM16 t = _
      rw [int16LEBytes, hsample x, ih]
      rfl
  have hone : ratTrunc ((1 : ℚ) * 32768) = 32768 := by
    norm_num [ratTrunc]
  have htwo : ratTrunc ((2 : ℚ) * 32768) = 65536 := by
    norm_num [ratTrunc]
  have hin : ∀ x : ℚ, -1 ≤ x → x < 1 →
      sampleToInt16 x = ratTrunc (x * 32768) ∧
      -32768 ≤ sampleToInt16 x ∧ sampleToInt16 x < 32768 := by
    intro x hx0 hx1
    have hb : -(32768 : ℚ) ≤ x * 32768 ∧ x * 32768 < 32768 := by
      constructor <;> nlinarith
    have hr := ratTrunc_bounds (x * 32768) 32768 (by exact_mod_cast hb.1)
      (by exact_mod_cast hb.2)
    have hrr : -32768 ≤ ratTrunc (x * 32768) ∧ ratTrunc (x * 32768) < 32768 := by
      exact_mod_cast hr
    have := toInt16_of_range (ratTrunc (x * 32768)) hrr.1 hrr.2
    unfold sampleToInt16
    rw [this]
    exact ⟨rfl, hrr.1, hrr.2⟩
  refine ⟨heq, hin, ?_, ?_, ?_⟩
  · rw [sampleToInt16, hone]
    decide
  · rw [sampleToInt16, htwo]
    decide
  · show int16LEBytes (sampleToInt16 1) ++ floatToPCM16 [] = [0, 128]
    rw [sampleToInt16, hone]
    decide

/-- C6, witness: the in-range sample 1/2 is stored as trunc(16384) = 16384
with no wraparound. -/
theorem c6_pcm16_witness :
    (-1 : ℚ) ≤ 1 / 2 ∧ (1 / 2 : ℚ) < 1 ∧
    sampleToInt16 (1 / 2) = ratTrunc (1 / 2 * 32768) := by
  refine ⟨by norm_num, by norm_num, ?_⟩
  exact (c6_pcm16.2.1 (1 / 2) (by norm_num) (by norm_num)).1

/-- C7, counterexample.  The claim asserts that `start` with a missing
context fails with an InvalidContext error.  In the code `connectToGemini`
just runs `if (!script) return;`: on the initial state (no script) the call
leaves the state completely unchanged — no error message is surfaced and
the status does not become ERROR (nor anything else), so no InvalidContext
failure is observable. -/
theorem c7_counterexample :
    initState.script = false ∧
    connectStart initState = initState ∧
    (connectStart initState).errorMsg = false ∧
    (connectStart initState).status ≠ ERROR := by
  refine ⟨rfl, rfl, rfl, by decide⟩

/-- C7, amended: calling `connectToGemini` with a missing context is a
silent no-op — it returns before any I/O (the connection path is never
entered, so no channel open, no device access) and before any state change
(the status does not become CONNECTING and no error of any kind is
surfaced). -/
theorem c7_no_script_noop (s : AppState) (h : s.script = false) :
    connectStart s = s := by
  rw [connectStart, if_pos h]

/-- C7, witness: on the initial state, which has no script, the connect
entry point changes nothing. -/
theorem c7_no_script_noop_witness :
    initState.script = false ∧ connectStart initState = initState :=
  ⟨rfl, c7_no_script_noop initState rfl⟩

/-- C8, counterexample.  The claim asserts a decode failure leaves the
status unchanged.  In the code `setStatus(SPEAKING)` runs before the decode,
so a malformed payload arriving while the session is LISTENING moves the
status to SPEAKING. -/
theorem c8_counterexample :
    listeningState.status = LISTENING ∧
    (onMessage listeningState 0 (some none) false 0).status = SPEAKING ∧
    (onMessage listeningState 0 (some none) false 0).status ≠ listeningState.status := by
  exact ⟨rfl, rfl, by decide⟩

/-- C8, amended: a decode failure on one inbound message drops only that
message's audio — no source is scheduled, the pending set, the error flag
and the rest of the state are untouched and the session does not transition
to ERROR — and, the clock being monotone (`now ≤ now2`), the next valid
chunk is scheduled exactly as it would have been had the malformed message
never arrived; however, the handler sets the status to SPEAKING before
decoding, so the malformed message forces SPEAKING rather than leaving the
status unchanged. -/
theorem c8_malformed_drop (s : AppState) (now now2 dur : ℚ) (srcId : ℕ)
    (hmono : now ≤ now2) :
    (onMessage s now (some none) false srcId).pending = s.pending ∧
    (onMessage s now (some none) false srcId).status = SPEAKING ∧
    (onMessage s now (some none) false srcId).status ≠ ERROR ∧
    (onMessage s now (some none) false srcId).errorMsg = s.errorMsg ∧
    startTimeOf (onMessage s now (some none) false srcId) now2 =
      startTimeOf s now2 ∧
    (onAudioChunk (onMessage s now (some none) false srcId) now2 dur srcId).nextStartTime =
      (onAudioChunk s now2 dur srcId).nextStartTime := by
  have hmax : max (max s.nextStartTime now) now2 = max s.nextStartTime now2 := by
    rw [max_assoc, max_eq_right hmono]
  refine ⟨rfl, rfl, fun hc => AppStatus.noConfusion hc, rfl, ?_, ?_⟩
  · show max (max s.nextStartTime now) now2 = max s.nextStartTime now2
    exact hmax
  · show max (max s.nextStartTime now) now2 + dur = max s.nextStartTime now2 + dur
    rw [hmax]

/-- C8, witness for the amended theorem: malformed message at clock time 0
on the initial state, next valid chunk at clock time 1 schedules at the same
start time as without the malformed message. -/
theorem c8_malformed_drop_witness :
    (0 : ℚ) ≤ 1 ∧
    (onMessage initState 0 (some none) false 0).pending = initState.pending ∧
    startTimeOf (onMessage initState 0 (some none) false 0) 1 =
      startTimeOf initState 1 := by
  have r := c8_malformed_drop initState 0 1 1 0 (by norm_num)
  exact ⟨by norm_num, r.1, r.2.2.2.2.1⟩

/-- C9: toggling the mic on while the status is READY or FILE_UPLOADED
(context supplied) triggers the connect path when no session is active and
otherwise moves the status to LISTENING; toggling the mic off while
LISTENING moves the status to READY. -/
theorem c9_mic_toggle (s : AppState) :
    ((s.status = READY ∨ s.status = FILE_UPLOADED) → s.isMicOn = false →
      (s.session = false →
        toggleMic s = connectStart { s with isMicOn := true }) ∧
      (s.session = true →
        toggleMic s = { s with isMicOn := true, status := LISTENING })) ∧
    (s.status = LISTENING → s.isMicOn = true →
      toggleMic s = { s with isMicOn := false, status := READY }) := by
  obtain ⟨st, sc, mic, se, er, nst, p, stp, ca⟩ := s
  constructor
  · rintro (hst | hst) hmic <;> subst hst <;> subst hmic <;>
      constructor <;> rintro hse <;> subst hse <;> rfl
  · rintro hst hmic
    subst hst
    subst hmic
    rfl

/-- C9, witness: on a connected READY state with the mic off, toggling the
mic on with an active session moves the status to LISTENING; on a LISTENING
state, toggling the mic off moves the status to READY. -/
theorem c9_mic_toggle_witness :
    toggleMic readyState = { readyState with isMicOn := true, status := LISTENING } ∧
    toggleMic listeningState = { listeningState with isMicOn := false, status := READY } :=
  ⟨((c9_mic_toggle readyState).1 (Or.inl rfl) rfl).2 rfl,
   (c9_mic_toggle listeningState).2 rfl rfl⟩

/-- C10: a mic toggle command issued while the status is IDLE or ERROR is a
no-op — the guard `if (status === IDLE || status === ERROR) return;` returns
before the flag is flipped, so the mic flag, the status, the pending set and
the rest of the state are all unchanged. -/
theorem c10_toggle_noop (s : AppState)
    (h : s.status = IDLE ∨ s.status = ERROR) :
    toggleMic s = s := by
  rw [toggleMic, if_pos h]

/-- C10, witness: toggling the mic in the initial (IDLE) state and in an
errored state changes nothing. -/
theorem c10_toggle_noop_witness :
    toggleMic initState = initState ∧ toggleMic erroredState = erroredState :=
  ⟨c10_toggle_noop initState (Or.inl rfl),
   c10_toggle_noop erroredState (Or.inr rfl)⟩

end PlayMaster
